import Mathlib

/-!
Shallow embedding of the legal-document simplifier service (src/main.py).

Text is modelled as `List Char`.  Python `str.split()` (split on runs of
whitespace, dropping empty pieces) is `splitWords`; `' '.flatten` is `joinSpace`.
The generation backend is abstracted as an oracle indexed by a call counter,
so that every behaviour of the external call (success or failure, per call)
is covered by quantifying over the oracle.
-/

/-- Worker for Python `str.split()`: scans the characters, accumulating the
current word in reverse; whitespace flushes the (nonempty) accumulator. -/
def splitWordsAux : List Char → List Char → List (List Char)
  | [], acc => if acc = [] then [] else [acc.reverse]
  | c :: cs, acc =>
    if c.isWhitespace then
      (if acc = [] then [] else [acc.reverse]) ++ splitWordsAux cs []
    else
      splitWordsAux cs (c :: acc)

/-- Python `text.split()`: the whitespace-separated words of `text`. -/
def splitWords (s : List Char) : List (List Char) := splitWordsAux s []

/-- Python `' '.flatten(words)`. -/
def joinSpace : List (List Char) → List Char
  | [] => []
  | [w] => w
  | w :: ws => w ++ ' ' :: joinSpace ws

/-- Loop body of `chunk_text` (src/main.py lines 69-82): greedy accumulation
of words; a word contributes its length plus one; when adding the next word
would push the running size over the bound, the current accumulator is sealed
(space-joined) and the word starts a fresh accumulator.  The final nonempty
accumulator is appended. -/
def chunkAux (B : Nat) : List (List Char) → List (List Char) → Nat → List (List Char)
  | [], currentChunk, _ =>
    if currentChunk = [] then [] else [joinSpace currentChunk]
  | w :: ws, currentChunk, currentSize =>
    if currentSize + (w.length + 1) > B then
      joinSpace currentChunk :: chunkAux B ws [w] (w.length + 1)
    else
      chunkAux B ws (currentChunk ++ [w]) (currentSize + (w.length + 1))

/-- `chunk_text` from src/main.py lines 62-82. -/
def chunk_text (text : List Char) (B : Nat) : List (List Char) :=
  chunkAux B (splitWords text) [] 0

/-- Outcome of one call into the generation layer: the generated text, or the
string rendering of the raised exception. -/
inductive GenResult where
  | ok (result : List Char)
  | err (cause : List Char)

/-- The inline error marker appended for a failed sub-chunk
(src/main.py line 166). -/
def errorMarker (cause : List Char) : List Char :=
  "[Error processing this section: ".toList ++ cause ++ "]".toList

/-- String rendering of the tenacity `RetryError` raised once the retry
budget is exhausted, wrapping the last cause. -/
def retryWrap (cause : List Char) : List Char :=
  "RetryError[".toList ++ cause ++ "]".toList

/-- The tenacity retry loop configured on `simplify_text_chunk`
(src/main.py lines 117-122): `stop_after_attempt(3)`, every exception
retryable.  `att k` is the outcome of attempt number `k`; the second argument
is the number of attempts already used, the third the attempts remaining.
Returns the final outcome together with the number of attempts made. -/
def retryGen (att : Nat → GenResult) : Nat → Nat → GenResult × Nat
  | used, 0 => (GenResult.err [], used)
  | used, rem + 1 =>
    match att used with
    | GenResult.ok s => (GenResult.ok s, used + 1)
    | GenResult.err c =>
      if rem = 0 then (GenResult.err (retryWrap c), used + 1)
      else retryGen att (used + 1) rem

/-- `simplify_text_chunk` (src/main.py lines 117-137) seen from its callers:
up to 3 attempts of the underlying `model.generate_content` call, each
exception re-raised into the retry layer; after exhaustion the wrapped error
propagates.  The backoff and jitter sleeps have no functional effect and are
not modelled. -/
def simplify_text_chunk (att : Nat → GenResult) : GenResult × Nat :=
  retryGen att 0 3

/-- Sub-chunk loop of `process_chunks_with_rate_limit` (src/main.py lines
157-166).  `gen n` is the outcome of the n-th call to `simplify_text_chunk`
made by the pipeline; the sub-chunk text itself does not influence the output
fragment, which is the generated text on success and the inline error marker
on failure.  Returns the fragments together with the next call counter. -/
def processSubs (gen : Nat → GenResult) : List (List Char) → Nat → List (List Char) × Nat
  | [], n => ([], n)
  | _ :: scs, n =>
    match gen n with
    | GenResult.ok r =>
      let rest := processSubs gen scs (n + 1)
      (r :: rest.1, rest.2)
    | GenResult.err c =>
      let rest := processSubs gen scs (n + 1)
      (errorMarker c :: rest.1, rest.2)

/-- Chunk loop of `process_chunks_with_rate_limit` (src/main.py lines
139-168): per chunk, one `simplify_text_chunk` call; on success the result is
appended; on failure the chunk is re-chunked with bound 8000 and each
sub-chunk is processed by the sub-chunk loop.  The random sleeps have no
functional effect and are not modelled. -/
def processChunksAux (gen : Nat → GenResult) : List (List Char) → Nat → List (List Char) × Nat
  | [], n => ([], n)
  | c :: cs, n =>
    match gen n with
    | GenResult.ok r =>
      let rest := processChunksAux gen cs (n + 1)
      (r :: rest.1, rest.2)
    | GenResult.err _ =>
      let subs := chunk_text c 8000
      let subRes := processSubs gen subs (n + 1)
      let rest := processChunksAux gen cs subRes.2
      (subRes.1 ++ rest.1, rest.2)

/-- `process_chunks_with_rate_limit` (src/main.py lines 139-168). -/
def process_chunks_with_rate_limit (gen : Nat → GenResult) (chunks : List (List Char)) : List (List Char) :=
  (processChunksAux gen chunks 0).1

/-- Fragment produced for one chunk or sub-chunk outcome, following the spec
wording of section 4.3: the result fragment on success, the synthetic
error-marker fragment on failure. -/
def contractFragment (g : GenResult) : List Char :=
  match g with
  | GenResult.ok r => r
  | GenResult.err c => errorMarker c

/-- Sub-chunk clause of the spec contract (section 4.3): for each sub-chunk
in order, one fragment — result or error marker — is appended and processing
continues. -/
def contractSubs (gen : Nat → GenResult) : List (List Char) → Nat → List (List Char)
  | [], _ => []
  | _ :: scs, n => contractFragment (gen n) :: contractSubs gen scs (n + 1)

/-- The pipeline contract of spec section 4.3, written from the spec wording:
strictly sequential, one fragment per chunk on success; on chunk failure the
chunk is re-chunked with bound 8000 and contributes one fragment per
sub-chunk, in place; processing always continues to the next chunk. -/
def pipelineContract (gen : Nat → GenResult) : List (List Char) → Nat → List (List Char)
  | [], _ => []
  | c :: cs, n =>
    match gen n with
    | GenResult.ok r => r :: pipelineContract gen cs (n + 1)
    | GenResult.err _ =>
      contractSubs gen (chunk_text c 8000) (n + 1)
        ++ pipelineContract gen cs (n + 1 + (chunk_text c 8000).length)

/-- Call counter after the pipeline has processed the given chunks: one call
per successful chunk, one failed call plus one call per sub-chunk otherwise. -/
def counterAfter (gen : Nat → GenResult) : List (List Char) → Nat → Nat
  | [], n => n
  | c :: cs, n =>
    match gen n with
    | GenResult.ok _ => counterAfter gen cs (n + 1)
    | GenResult.err _ => counterAfter gen cs (n + 1 + (chunk_text c 8000).length)

/-- A FastAPI `HTTPException`: status code and detail string. -/
structure HTTPError where
  status : Nat
  detail : List Char

/-- Python `str(e)` for a starlette `HTTPException`:
the f-string rendering of status code, colon, space, detail. -/
def strOfHTTPError (e : HTTPError) : List Char :=
  (Nat.repr e.status).toList ++ ':' :: ' ' :: e.detail

/-- Detected MIME type of the upload, as classified by the endpoint. -/
inductive FileKind where
  | pdf
  | plain
  | other

/-- Request-scoped environment of one `/simplify` request: whether the module
level `model` is initialized, the detected file kind, the collaborator
results (PyPDF2 extraction, utf-8 and latin-1 decoding), and the generation
oracle driving the pipeline. -/
structure SimplifyEnv where
  modelOk : Bool
  fileKind : FileKind
  pdfExtract : Except (List Char) (List Char)
  utf8Decode : Option (List Char)
  latin1Decode : Option (List Char)
  gen : Nat → GenResult

/-- `read_pdf_file` (src/main.py lines 84-115): on any PyPDF2 failure it
raises an HTTP 400 with a fixed message; otherwise it returns the extracted
text. -/
def read_pdf_file (r : Except (List Char) (List Char)) : Except HTTPError (List Char) :=
  match r with
  | Except.ok t => Except.ok t
  | Except.error _ =>
    Except.error ⟨400, "Could not read the PDF document. Please ensure it\x27s a valid PDF file.".toList⟩

/-- Python `not text.strip()`: the text has no non-whitespace character. -/
def isBlank (t : List Char) : Bool := t.all (fun c => c.isWhitespace)

/-- Detail of the HTTP 500 raised when the model is uninitialized
(src/main.py lines 174-178). -/
def misconfigDetail : List Char :=
  "Gemini model not initialized properly. Please check your API key and model configuration.".toList

/-- Detail of the HTTP 400 raised for an unsupported MIME type
(src/main.py lines 201-205). -/
def unsupportedDetail : List Char :=
  "Unsupported file type. Please upload a .txt or .pdf file.".toList

/-- Detail of the HTTP 400 raised when neither decoding succeeds
(src/main.py lines 196-200). -/
def decodeDetail : List Char :=
  "Could not decode text file content. Please ensure it\x27s a valid text file.".toList

/-- Detail of the HTTP 400 raised for a blank document
(src/main.py lines 208-212). -/
def emptyDetail : List Char := "The uploaded file is empty".toList

/-- Result of one `/simplify` request: the HTTP response, whether the
endpoint got as far as reading and extracting the upload, and how many
`simplify_text_chunk` calls the pipeline made. -/
structure SimplifyOutcome where
  response : Except HTTPError (List Char × List Char)
  extractionAttempted : Bool
  genCalls : Nat

/-- File-type dispatch and text extraction of `simplify_document`
(src/main.py lines 183-205). -/
def extractText (env : SimplifyEnv) : Except HTTPError (List Char) :=
  match env.fileKind with
  | FileKind.pdf => read_pdf_file env.pdfExtract
  | FileKind.plain =>
    match env.utf8Decode with
    | some t => Except.ok t
    | none =>
      match env.latin1Decode with
      | some t => Except.ok t
      | none => Except.error ⟨400, decodeDetail⟩
  | FileKind.other => Except.error ⟨400, unsupportedDetail⟩

/-- Python `'\n\n'.flatten(fragments)` (src/main.py line 224). -/
def joinBlankLine : List (List Char) → List Char
  | [] => []
  | [w] => w
  | w :: ws => w ++ '\n' :: '\n' :: joinBlankLine ws

/-- Body of the `try` block of `simplify_document` (src/main.py lines
173-229): model check, read and extract, blank check, chunk with the default
bound 15000, run the pipeline, join the fragments. -/
def simplifyTryBody (env : SimplifyEnv) : SimplifyOutcome :=
  if env.modelOk = false then
    ⟨Except.error ⟨500, misconfigDetail⟩, false, 0⟩
  else
    match extractText env with
    | Except.error e => ⟨Except.error e, true, 0⟩
    | Except.ok text =>
      if isBlank text then
        ⟨Except.error ⟨400, emptyDetail⟩, true, 0⟩
      else
        let chunks := chunk_text text 15000
        let res := processChunksAux env.gen chunks 0
        ⟨Except.ok (text, joinBlankLine res.1), true, res.2⟩

/-- `simplify_document` (src/main.py lines 171-232): the whole `try` body is
wrapped by `except Exception as e: raise HTTPException(500, str(e))`, which
also catches the `HTTPException` values raised inside the body and re-raises
them with status 500 and the stringified original exception as detail. -/
def simplify_document (env : SimplifyEnv) : SimplifyOutcome :=
  let b := simplifyTryBody env
  match b.response with
  | Except.ok r => ⟨Except.ok r, b.extractionAttempted, b.genCalls⟩
  | Except.error e => ⟨Except.error ⟨500, strOfHTTPError e⟩, b.extractionAttempted, b.genCalls⟩

/-- Status code of an HTTP response, `none` for a 200 success. -/
def respStatus {α : Type} : Except HTTPError α → Option Nat
  | Except.ok _ => none
  | Except.error e => some e.status

/-- String rendering of the `AttributeError` raised by calling
`generate_content` on the uninitialized (`None`) model. -/
def attrErrDetail : List Char :=
  "AttributeError: \x27NoneType\x27 object has no attribute \x27generate_content\x27".toList

/-- Request-scoped environment of one `/chat` request. -/
structure ChatEnv where
  modelOk : Bool
  rawGen : Nat → GenResult
  message : List Char
  documentContent : Option (List Char)

/-- One attempt of `model.generate_content` inside `simplify_text_chunk`:
when the model is `None` the attribute access itself raises, so every attempt
fails with the `AttributeError`; otherwise the oracle decides. -/
def modelAttempt (modelOk : Bool) (rawGen : Nat → GenResult) (k : Nat) : GenResult :=
  if modelOk then rawGen k else GenResult.err attrErrDetail

/-- `chat_with_document` (src/main.py lines 235-253): no model check — the
prompt is built and `simplify_text_chunk` is called directly; any exception
(including the retry exhaustion) is caught and re-raised as HTTP 500 with its
string rendering.  Returns the response and the number of generation attempts
made. -/
def chat_with_document (env : ChatEnv) : Except HTTPError (List Char) × Nat :=
  match simplify_text_chunk (modelAttempt env.modelOk env.rawGen) with
  | (GenResult.ok r, n) => (Except.ok r, n)
  | (GenResult.err c, n) => (Except.error ⟨500, c⟩, n)

/-- A word as produced by `splitWords`: nonempty and whitespace-free. -/
def goodWord (w : List Char) : Prop :=
  w ≠ [] ∧ ∀ c ∈ w, c.isWhitespace = false

/-- Accumulated size of a word list under the per-word accounting rule of
`chunk_text`: each word counts its length plus one. -/
def wordsSize (ws : List (List Char)) : Nat :=
  (ws.map (fun w => w.length + 1)).sum

/-- A 4000-character word, used to build a chunk that re-chunks into exactly
two sub-chunks at bound 8000. -/
def w4a : List Char := List.replicate 4000 'a'

/-- A second 4000-character word. -/
def w4b : List Char := List.replicate 4000 'b'

/-- A chunk of two 4000-character words: serialized length 8001, so it
re-chunks at bound 8000 into exactly the two words. -/
def bigChunk : List Char := joinSpace [w4a, w4b]

/-- Oracle for the three-chunk scenario of claim C4: chunk 1 succeeds,
chunk 2 fails, its first sub-chunk succeeds, its second fails, chunk 3
succeeds. -/
def genC4 : Nat → GenResult
  | 0 => GenResult.ok "frag1".toList
  | 1 => GenResult.err "rate limited".toList
  | 2 => GenResult.ok "sub2a".toList
  | 3 => GenResult.err "boom".toList
  | _ => GenResult.ok "frag3".toList

/-- An upload whose detected MIME type is neither PDF nor plain text. -/
def envUnsupported : SimplifyEnv :=
  ⟨true, FileKind.other, Except.ok [], none, none, fun _ => GenResult.ok []⟩

/-- An upload detected as PDF whose extraction fails. -/
def envCorruptPdf : SimplifyEnv :=
  ⟨true, FileKind.pdf, Except.error "EOF marker not found".toList, none, none,
    fun _ => GenResult.ok []⟩

/-- A plain-text upload that neither decoding accepts. -/
def envUndecodable : SimplifyEnv :=
  ⟨true, FileKind.plain, Except.ok [], none, none, fun _ => GenResult.ok []⟩

/-- A plain-text upload whose extracted text is whitespace only. -/
def envBlankText : SimplifyEnv :=
  ⟨true, FileKind.plain, Except.ok [], some "   ".toList, none, fun _ => GenResult.ok []⟩

/-- A `/simplify` request arriving while the model is uninitialized. -/
def envNoModel : SimplifyEnv :=
  ⟨false, FileKind.other, Except.ok [], none, none, fun _ => GenResult.ok []⟩

/-- A `/chat` request arriving while the model is uninitialized. -/
def chatEnvNoModel : ChatEnv :=
  ⟨false, fun _ => GenResult.ok [], "hi".toList, none⟩

/-- Every word returned by the split worker is nonempty and whitespace-free,
provided the accumulator holds only non-whitespace characters. -/
theorem splitWordsAux_good (s : List Char) : ∀ acc : List Char,
    (∀ c ∈ acc, c.isWhitespace = false) →
    ∀ w ∈ splitWordsAux s acc, goodWord w := by
  induction s with
  | nil =>
    intro acc hacc w hw
    by_cases h : acc = []
    · simp [splitWordsAux, h] at hw
    · simp [splitWordsAux, h] at hw
      subst hw
      refine ⟨by simpa using h, fun c hc => hacc c ?_⟩
      exact List.mem_reverse.mp hc
  | cons c cs ih =>
    intro acc hacc w hw
    by_cases hws : c.isWhitespace = true
    · rw [splitWordsAux, if_pos hws] at hw
      rcases List.mem_append.mp hw with h1 | h2
      · by_cases h : acc = []
        · simp [h] at h1
        · simp [h] at h1
          subst h1
          refine ⟨by simpa using h, fun d hd => hacc d ?_⟩
          exact List.mem_reverse.mp hd
      · exact ih [] (by simp) w h2
    · rw [splitWordsAux, if_neg hws] at hw
      refine ih (c :: acc) ?_ w hw
      intro d hd
      rcases List.mem_cons.mp hd with h1 | h2
      · subst h1; simpa using hws
      · exact hacc d h2

/-- Every word of `splitWords s` is nonempty and whitespace-free. -/
theorem splitWords_good (s : List Char) : ∀ w ∈ splitWords s, goodWord w :=
  splitWordsAux_good s [] (by simp)

/-- Splitting distributes over a space: words never span the separator. -/
theorem splitWordsAux_append_space (ys xs : List Char) : ∀ acc : List Char,
    splitWordsAux (xs ++ ' ' :: ys) acc = splitWordsAux xs acc ++ splitWordsAux ys [] := by
  have hsp : (' ' : Char).isWhitespace = true := by decide
  induction xs with
  | nil =>
    intro acc
    by_cases h : acc = [] <;> simp [splitWordsAux, hsp, h]
  | cons c cs ih =>
    intro acc
    by_cases hws : c.isWhitespace = true
    · simp [splitWordsAux, hws, ih]
    · simp [splitWordsAux, hws, ih]

/-- Scanning a whitespace-free word just moves it into the accumulator. -/
theorem splitWordsAux_word (w : List Char) : ∀ (rest acc : List Char),
    (∀ c ∈ w, c.isWhitespace = false) →
    splitWordsAux (w ++ rest) acc = splitWordsAux rest (w.reverse ++ acc) := by
  induction w with
  | nil => intro rest acc _; simp
  | cons c cs ih =>
    intro rest acc h
    have hc : c.isWhitespace = false := h c (by simp)
    have hcs : ∀ d ∈ cs, d.isWhitespace = false := fun d hd => h d (by simp [hd])
    simp [splitWordsAux, hc, ih rest (c :: acc) hcs]

/-- Splitting a single nonempty whitespace-free word returns it alone. -/
theorem splitWords_single (w : List Char) (hw : goodWord w) : splitWords w = [w] := by
  obtain ⟨hne, hchars⟩ := hw
  have h := splitWordsAux_word w [] [] hchars
  simp only [List.append_nil] at h
  rw [splitWords, h, splitWordsAux]
  simp [hne]

/-- Splitting a space-join gives the concatenation of the splits. -/
theorem splitWords_joinSpace (chunks : List (List Char)) :
    splitWords (joinSpace chunks) = (chunks.map splitWords).flatten := by
  induction chunks with
  | nil => simp [joinSpace, splitWords, splitWordsAux]
  | cons c cs ih =>
    cases cs with
    | nil => simp [joinSpace]
    | cons c2 cs2 =>
      have h := splitWordsAux_append_space (joinSpace (c2 :: cs2)) c []
      calc splitWords (joinSpace (c :: c2 :: cs2))
          = splitWordsAux (c ++ ' ' :: joinSpace (c2 :: cs2)) [] := rfl
        _ = splitWords c ++ splitWords (joinSpace (c2 :: cs2)) := h
        _ = splitWords c ++ ((c2 :: cs2).map splitWords).flatten := by rw [ih]
        _ = ((c :: c2 :: cs2).map splitWords).flatten := by simp

/-- Splitting a space-join of nonempty whitespace-free words recovers the
word list. -/
theorem splitWords_joinSpace_good (ws : List (List Char))
    (h : ∀ w ∈ ws, goodWord w) : splitWords (joinSpace ws) = ws := by
  rw [splitWords_joinSpace]
  induction ws with
  | nil => simp
  | cons w ws ih =>
    have hw := splitWords_single w (h w (by simp))
    have hws : ∀ v ∈ ws, goodWord v := fun v hv => h v (by simp [hv])
    simp [hw, ih hws]

/-- Word-preservation invariant of the chunk loop: splitting each produced
chunk and concatenating recovers the pending accumulator followed by the
remaining words. -/
theorem chunkAux_words (B : Nat) (ws : List (List Char)) :
    ∀ (cur : List (List Char)) (sz : Nat),
    (∀ w ∈ cur, goodWord w) → (∀ w ∈ ws, goodWord w) →
    ((chunkAux B ws cur sz).map splitWords).flatten = cur ++ ws := by
  induction ws with
  | nil =>
    intro cur sz hcur _
    by_cases h : cur = []
    · simp [chunkAux, h]
    · simp [chunkAux, h, splitWords_joinSpace_good cur hcur]
  | cons w ws ih =>
    intro cur sz hcur hws
    have hw : goodWord w := hws w (by simp)
    have hws' : ∀ v ∈ ws, goodWord v := fun v hv => hws v (by simp [hv])
    by_cases hcond : sz + (w.length + 1) > B
    · have hsingle : ∀ v ∈ [w], goodWord v := by
        intro v hv; simp at hv; subst hv; exact hw
      rw [chunkAux, if_pos hcond]
      simp [splitWords_joinSpace_good cur hcur, ih [w] (w.length + 1) hsingle hws']
    · have hcur' : ∀ v ∈ cur ++ [w], goodWord v := by
        intro v hv
        rcases List.mem_append.mp hv with h1 | h2
        · exact hcur v h1
        · simp at h2; subst h2; exact hw
      rw [chunkAux, if_neg hcond]
      simp [ih (cur ++ [w]) (sz + (w.length + 1)) hcur' hws']

/-- Serialized length of a space-join: one less than the accumulated size. -/
theorem joinSpace_length (ws : List (List Char)) (h : ws ≠ []) :
    (joinSpace ws).length + 1 = wordsSize ws := by
  induction ws with
  | nil => exact absurd rfl h
  | cons w vs ih =>
    cases vs with
    | nil => simp [joinSpace, wordsSize]
    | cons v vs2 =>
      have := ih (by simp)
      simp only [joinSpace, wordsSize, List.map_cons, List.sum_cons, List.length_append,
        List.length_cons] at this ⊢
      omega

/-- A space-join of nonempty words is nonempty. -/
theorem joinSpace_ne_nil (w : List Char) (ws : List (List Char)) (hw : w ≠ []) :
    joinSpace (w :: ws) ≠ [] := by
  cases ws with
  | nil => simpa [joinSpace] using hw
  | cons v vs => simp [joinSpace]

/-- A sealed accumulator yields a chunk within the bound, unless it is a
single word whose length plus one exceeds the bound. -/
theorem sealed_chunk_ok (B sz : Nat) (cur : List (List Char))
    (h1 : sz = wordsSize cur) (h2 : sz ≤ B ∨ ∃ w, cur = [w])
    (hg : ∀ v ∈ cur, goodWord v) :
    (joinSpace cur).length ≤ B ∨
      (splitWords (joinSpace cur) = [joinSpace cur] ∧ B < (joinSpace cur).length + 1) := by
  cases cur with
  | nil => left; simp [joinSpace]
  | cons w ws =>
    have hlen := joinSpace_length (w :: ws) (by simp)
    by_cases hsz : sz ≤ B
    · left; omega
    · rcases h2 with h2 | ⟨v, hv⟩
      · exact absurd h2 hsz
      · right
        injection hv with hwv hwsnil
        subst hwsnil
        subst hwv
        have hw : goodWord w := hg w (by simp)
        constructor
        · have hjs : joinSpace [w] = w := rfl
          rw [hjs]
          exact splitWords_single w hw
        · omega

/-- Bound invariant of the chunk loop: every produced chunk fits the bound or
is a single oversized word. -/
theorem chunkAux_bound (B : Nat) (ws : List (List Char)) :
    ∀ (cur : List (List Char)) (sz : Nat),
    sz = wordsSize cur → (sz ≤ B ∨ ∃ w, cur = [w]) →
    (∀ v ∈ cur, goodWord v) → (∀ v ∈ ws, goodWord v) →
    ∀ c ∈ chunkAux B ws cur sz,
      c.length ≤ B ∨ (splitWords c = [c] ∧ B < c.length + 1) := by
  induction ws with
  | nil =>
    intro cur sz h1 h2 hcur _ c hc
    by_cases h : cur = []
    · simp [chunkAux, h] at hc
    · simp [chunkAux, h] at hc
      subst hc
      exact sealed_chunk_ok B sz cur h1 h2 hcur
  | cons w ws ih =>
    intro cur sz h1 h2 hcur hws c hc
    have hw : goodWord w := hws w (by simp)
    have hws' : ∀ v ∈ ws, goodWord v := fun v hv => hws v (by simp [hv])
    by_cases hcond : sz + (w.length + 1) > B
    · rw [chunkAux, if_pos hcond] at hc
      rcases List.mem_cons.mp hc with h | h
      · subst h
        exact sealed_chunk_ok B sz cur h1 h2 hcur
      · refine ih [w] (w.length + 1) ?_ ?_ ?_ hws' c h
        · simp [wordsSize]
        · right; exact ⟨w, rfl⟩
        · intro v hv; simp at hv; subst hv; exact hw
    · rw [chunkAux, if_neg hcond] at hc
      refine ih (cur ++ [w]) (sz + (w.length + 1)) ?_ ?_ ?_ hws' c hc
      · simp [wordsSize, List.map_append, List.sum_append] at h1 ⊢
        omega
      · left; omega
      · intro v hv
        rcases List.mem_append.mp hv with h | h
        · exact hcur v h
        · simp at h; subst h; exact hw

/-- The chunk loop never emits an empty chunk once the accumulator is
nonempty. -/
theorem chunkAux_no_nil (B : Nat) (ws : List (List Char)) :
    ∀ (cur : List (List Char)) (sz : Nat),
    cur ≠ [] → (∀ v ∈ cur, goodWord v) → (∀ v ∈ ws, goodWord v) →
    [] ∉ chunkAux B ws cur sz := by
  induction ws with
  | nil =>
    intro cur sz hne hcur _ hmem
    simp [chunkAux, hne] at hmem
    cases cur with
    | nil => exact hne rfl
    | cons w vs =>
      exact joinSpace_ne_nil w vs (hcur w (by simp)).1 hmem
  | cons w ws ih =>
    intro cur sz hne hcur hws hmem
    have hw : goodWord w := hws w (by simp)
    have hws' : ∀ v ∈ ws, goodWord v := fun v hv => hws v (by simp [hv])
    have hsingle : ∀ v ∈ [w], goodWord v := by
      intro v hv; simp at hv; subst hv; exact hw
    by_cases hcond : sz + (w.length + 1) > B
    · rw [chunkAux, if_pos hcond] at hmem
      rcases List.mem_cons.mp hmem with h | h
      · cases cur with
        | nil => exact hne rfl
        | cons v vs => exact joinSpace_ne_nil v vs (hcur v (by simp)).1 h.symm
      · exact ih [w] (w.length + 1) (by simp) hsingle hws' h
    · rw [chunkAux, if_neg hcond] at hmem
      refine ih (cur ++ [w]) (sz + (w.length + 1)) (by simp) ?_ hws' hmem
      intro v hv
      rcases List.mem_append.mp hv with h | h
      · exact hcur v h
      · simp at h; subst h; exact hw

/-- The sub-chunk loop produces exactly one fragment per sub-chunk, in order,
and consumes one generation call per sub-chunk. -/
theorem processSubs_eq (gen : Nat → GenResult) (scs : List (List Char)) :
    ∀ n : Nat, processSubs gen scs n = (contractSubs gen scs n, n + scs.length) := by
  induction scs with
  | nil => intro n; simp [processSubs, contractSubs]
  | cons sc scs ih =>
    intro n
    cases hg : gen n with
    | ok r =>
      simp only [processSubs, contractSubs, contractFragment, hg, ih (n + 1),
        List.length_cons]
      exact Prod.ext rfl (by omega)
    | err c =>
      simp only [processSubs, contractSubs, contractFragment, hg, ih (n + 1),
        List.length_cons]
      exact Prod.ext rfl (by omega)

/-- The chunk loop implements the spec contract of section 4.3, consuming the
predicted number of generation calls. -/
theorem processChunksAux_eq (gen : Nat → GenResult) (chunks : List (List Char)) :
    ∀ n : Nat,
    processChunksAux gen chunks n = (pipelineContract gen chunks n, counterAfter gen chunks n) := by
  induction chunks with
  | nil => intro n; simp [processChunksAux, pipelineContract, counterAfter]
  | cons c cs ih =>
    intro n
    cases hg : gen n with
    | ok r =>
      simp only [processChunksAux, pipelineContract, counterAfter, hg, ih (n + 1)]
    | err e =>
      simp only [processChunksAux, pipelineContract, counterAfter, hg,
        processSubs_eq gen (chunk_text c 8000) (n + 1), ih (n + 1 + (chunk_text c 8000).length)]

/-- Unfolding equation of the chunk loop on an empty word list. -/
theorem chunkAux_nil_eq (B : Nat) (cur : List (List Char)) (sz : Nat) :
    chunkAux B [] cur sz = if cur = [] then [] else [joinSpace cur] := rfl

/-- Unfolding equation of the chunk loop on a cons. -/
theorem chunkAux_cons_eq (B : Nat) (w : List Char) (ws cur : List (List Char)) (sz : Nat) :
    chunkAux B (w :: ws) cur sz =
      if sz + (w.length + 1) > B then
        joinSpace cur :: chunkAux B ws [w] (w.length + 1)
      else
        chunkAux B ws (cur ++ [w]) (sz + (w.length + 1)) := rfl

/-- The oversized chunk of the C4 scenario re-chunks at bound 8000 into
exactly its two 4000-character words. -/
theorem bigChunk_subchunks : chunk_text bigChunk 8000 = [w4a, w4b] := by
  have hla : w4a.length = 4000 := by
    rw [w4a]; exact List.length_replicate 4000 'a'
  have hlb : w4b.length = 4000 := by
    rw [w4b]; exact List.length_replicate 4000 'b'
  have hga : goodWord w4a := by
    constructor
    · intro h
      rw [h] at hla
      exact absurd hla (by decide)
    · intro c hc
      rw [w4a] at hc
      rw [List.eq_of_mem_replicate hc]
      decide
  have hgb : goodWord w4b := by
    constructor
    · intro h
      rw [h] at hlb
      exact absurd hlb (by decide)
    · intro c hc
      rw [w4b] at hc
      rw [List.eq_of_mem_replicate hc]
      decide
  have hgood : ∀ w ∈ [w4a, w4b], goodWord w := by
    intro w hw
    rcases List.mem_cons.mp hw with h | h
    · subst h; exact hga
    · simp at h; subst h; exact hgb
  have hsplit : splitWords bigChunk = [w4a, w4b] :=
    splitWords_joinSpace_good [w4a, w4b] hgood
  rw [chunk_text, hsplit, chunkAux_cons_eq, if_neg (by rw [hla]; omega),
    chunkAux_cons_eq, if_pos (by rw [hla, hlb]; omega),
    chunkAux_nil_eq, if_neg (by simp)]
  rfl

/-- C5: for every input text T and every positive bound B, joining
`chunk_text T B` with single spaces yields a string whose whitespace-split
word sequence equals the whitespace-split word sequence of T — no word is
lost, duplicated, split, or reordered. -/
theorem c5_chunk_round_trip (text : List Char) (B : Nat) (_hB : 0 < B) :
    splitWords (joinSpace (chunk_text text B)) = splitWords text := by
  rw [splitWords_joinSpace, chunk_text,
    chunkAux_words B (splitWords text) [] 0 (by simp) (splitWords_good text)]
  simp

/-- Witness for C5 at a concrete text and bound. -/
theorem c5_chunk_round_trip_witness :
    0 < 7 ∧
      splitWords (joinSpace (chunk_text "hello legal world".toList 7)) =
        splitWords "hello legal world".toList :=
  ⟨by decide, c5_chunk_round_trip "hello legal world".toList 7 (by decide)⟩

/-- C6 counterexample: at text "aaa bbb" and bound 2, two distinct chunks
exceed the bound, so no single exceptional chunk covers all violations — the
claim "every chunk except possibly one has serialized length at most B" is
false as stated. -/
theorem c6_counterexample :
    ¬ ∃ e : List Char, ∀ c ∈ chunk_text "aaa bbb".toList 2, c ≠ e → c.length ≤ 2 := by
  rintro ⟨e, h⟩
  by_cases ha : "aaa".toList = e
  · have hb := h "bbb".toList (by decide) (by rw [← ha]; decide)
    exact absurd hb (by decide)
  · have h2 := h "aaa".toList (by decide) ha
    exact absurd h2 (by decide)

/-- C6 (amended): for every input text and bound B, every chunk produced by
`chunk_text text B` either has serialized length at most B or consists of a
single word whose length plus one exceeds B; more than one such oversized
single-word chunk may occur. -/
theorem c6_chunk_size_bound (text : List Char) (B : Nat) (c : List Char)
    (hc : c ∈ chunk_text text B) :
    c.length ≤ B ∨ (splitWords c = [c] ∧ B < c.length + 1) := by
  refine chunkAux_bound B (splitWords text) [] 0 ?_ ?_ ?_ (splitWords_good text) c hc
  · simp [wordsSize]
  · left; omega
  · simp

/-- Witness for C6 at a concrete text, bound, and chunk. -/
theorem c6_chunk_size_bound_witness :
    "aaa".toList ∈ chunk_text "aaa bbb".toList 2 ∧
      ("aaa".toList.length ≤ 2 ∨
        (splitWords "aaa".toList = ["aaa".toList] ∧ 2 < "aaa".toList.length + 1)) :=
  ⟨by decide, c6_chunk_size_bound "aaa bbb".toList 2 "aaa".toList (by decide)⟩

/-- C7: for every input text consisting of a single word whose length plus
one exceeds the bound B, `chunk_text text B` produces that word as its own,
unsplit chunk. -/
theorem c7_oversized_word_own_chunk (text w : List Char) (B : Nat)
    (hw : splitWords text = [w]) (hB : B < w.length + 1) :
    w ∈ chunk_text text B := by
  rw [chunk_text, hw, chunkAux_cons_eq, if_pos (by omega), chunkAux_nil_eq,
    if_neg (by simp)]
  simp [joinSpace]

/-- Witness for C7 at a concrete oversized single word. -/
theorem c7_oversized_word_own_chunk_witness :
    splitWords "aaaa".toList = ["aaaa".toList] ∧ 3 < "aaaa".toList.length + 1 ∧
      "aaaa".toList ∈ chunk_text "aaaa".toList 3 :=
  ⟨by decide, by decide,
    c7_oversized_word_own_chunk "aaaa".toList "aaaa".toList 3 (by decide) (by decide)⟩

/-- C9: when the first word of the text is oversized, the first chunk is the
empty string, and an empty chunk appears in the output only in that case. -/
theorem c9_empty_first_chunk (text : List Char) (B : Nat) :
    (∀ w rest, splitWords text = w :: rest → B < w.length + 1 →
        (chunk_text text B).head? = some [])
    ∧ ([] ∈ chunk_text text B →
        ∃ w rest, splitWords text = w :: rest ∧ B < w.length + 1) := by
  constructor
  · intro w rest hw hB
    rw [chunk_text, hw, chunkAux_cons_eq, if_pos (by omega)]
    rfl
  · intro hmem
    rw [chunk_text] at hmem
    cases hsplit : splitWords text with
    | nil =>
      rw [hsplit] at hmem
      simp [chunkAux_nil_eq] at hmem
    | cons w rest =>
      rw [hsplit] at hmem
      by_cases hcond : 0 + (w.length + 1) > B
      · exact ⟨w, rest, rfl, by omega⟩
      · exfalso
        have hgood := splitWords_good text
        rw [hsplit] at hgood
        rw [chunkAux_cons_eq, if_neg hcond, List.nil_append] at hmem
        refine chunkAux_no_nil B rest [w] (0 + (w.length + 1)) (by simp) ?_ ?_ hmem
        · intro u hu
          have huw : u = w := by simpa using hu
          rw [huw]
          exact hgood w (by simp)
        · intro u hu; exact hgood u (by simp [hu])

/-- Witness for C9 at a concrete oversized first word. -/
theorem c9_empty_first_chunk_witness :
    splitWords "aaa".toList = "aaa".toList :: [] ∧ 2 < "aaa".toList.length + 1 ∧
      (chunk_text "aaa".toList 2).head? = some [] :=
  ⟨by decide, by decide,
    (c9_empty_first_chunk "aaa".toList 2).1 "aaa".toList [] (by decide) (by decide)⟩

/-- C3: for every input chunk sequence and every behaviour of the generation
call, the pipeline returns exactly the ordered fragment sequence of the spec
contract: one fragment per successful chunk, and for a failed chunk one
fragment per sub-chunk in place — the generated text on sub-chunk success,
the synthetic marker on sub-chunk failure — with processing always continuing
to the next sub-chunk and the next top-level chunk.  The model is a total
function, so no input and no oracle behaviour can make it raise. -/
theorem c3_pipeline_matches_contract (gen : Nat → GenResult) (chunks : List (List Char)) :
    process_chunks_with_rate_limit gen chunks = pipelineContract gen chunks 0 := by
  rw [process_chunks_with_rate_limit, processChunksAux_eq gen chunks 0]

/-- Abstract three-chunk scenario: chunk 1 succeeds, chunk 2 fails and
re-chunks into exactly two sub-chunks of which the first succeeds and the
second fails, chunk 3 succeeds. -/
theorem pipeline_scenario (gen : Nat → GenResult) (c1 c2 c3 u v f1 e1 s2 e2 f3 : List Char)
    (h0 : gen 0 = GenResult.ok f1) (h1 : gen 1 = GenResult.err e1)
    (hsub : chunk_text c2 8000 = [u, v])
    (h2 : gen 2 = GenResult.ok s2) (h3 : gen 3 = GenResult.err e2)
    (h4 : gen 4 = GenResult.ok f3) :
    process_chunks_with_rate_limit gen [c1, c2, c3] = [f1, s2, errorMarker e2, f3] := by
  simp only [process_chunks_with_rate_limit, processChunksAux, processSubs, hsub,
    h0, h1, h2, h3, h4, Nat.reduceAdd, List.nil_append, List.cons_append]

/-- C4: in the three-chunk scenario — chunk 1 succeeds, chunk 2 fails and
falls back to exactly two sub-chunks of which the first succeeds and the
second fails, chunk 3 succeeds — the output is exactly
[fragment1, subfragment2a, error marker, fragment3], length 4, in order. -/
theorem c4_three_chunk_scenario :
    chunk_text bigChunk 8000 = [w4a, w4b] ∧
      process_chunks_with_rate_limit genC4 ["intro".toList, bigChunk, "outro".toList] =
        ["frag1".toList, "sub2a".toList, errorMarker "boom".toList, "frag3".toList] :=
  ⟨bigChunk_subchunks,
    pipeline_scenario genC4 "intro".toList bigChunk "outro".toList w4a w4b
      "frag1".toList "rate limited".toList "sub2a".toList "boom".toList "frag3".toList
      rfl rfl bigChunk_subchunks rfl rfl rfl⟩

/-- C8: for every behaviour of the underlying generation call, at most 3
attempts are made; while attempts remain every exception leads to the next
attempt, so a first success at attempt k returns that success after k + 1
attempts; and when all 3 attempts fail the error propagates to the caller
wrapping the last cause rather than being swallowed. -/
theorem c8_retry_policy (att : Nat → GenResult) :
    (simplify_text_chunk att).2 ≤ 3
    ∧ (∀ c0 c1 c2, att 0 = GenResult.err c0 → att 1 = GenResult.err c1 →
        att 2 = GenResult.err c2 →
        simplify_text_chunk att = (GenResult.err (retryWrap c2), 3))
    ∧ (∀ k, k < 3 → (∀ j, j < k → ∃ c, att j = GenResult.err c) →
        ∀ s, att k = GenResult.ok s →
        simplify_text_chunk att = (GenResult.ok s, k + 1)) := by
  refine ⟨?_, ?_, ?_⟩
  · rw [simplify_text_chunk]
    cases h0 : att 0 with
    | ok s => simp [retryGen, h0]
    | err c0 =>
      cases h1 : att 1 with
      | ok s => simp [retryGen, h0, h1]
      | err c1 =>
        cases h2 : att 2 with
        | ok s => simp [retryGen, h0, h1, h2]
        | err c2 => simp [retryGen, h0, h1, h2]
  · intro c0 c1 c2 h0 h1 h2
    rw [simplify_text_chunk]
    simp [retryGen, h0, h1, h2]
  · intro k hk hprev s hs
    interval_cases k
    · rw [simplify_text_chunk]
      simp [retryGen, hs]
    · obtain ⟨c0, h0⟩ := hprev 0 (by omega)
      rw [simplify_text_chunk]
      simp [retryGen, h0, hs]
    · obtain ⟨c0, h0⟩ := hprev 0 (by omega)
      obtain ⟨c1, h1⟩ := hprev 1 (by omega)
      rw [simplify_text_chunk]
      simp [retryGen, h0, h1, hs]

/-- Witness for C8: an oracle that always fails exhausts the 3 attempts and
propagates the wrapped last cause. -/
theorem c8_retry_policy_witness :
    (fun _ : Nat => GenResult.err "x".toList) 0 = GenResult.err "x".toList ∧
      simplify_text_chunk (fun _ => GenResult.err "x".toList) =
        (GenResult.err (retryWrap "x".toList), 3) :=
  ⟨rfl, (c8_retry_policy (fun _ => GenResult.err "x".toList)).2.1
    "x".toList "x".toList "x".toList rfl rfl rfl⟩

/-- C10: a top-level chunk whose text contains no words, when its generation
call fails, re-chunks to zero sub-chunks and contributes neither a fragment
nor an error marker — it is silently dropped and the pipeline moves on. -/
theorem c10_wordless_failed_chunk_dropped (gen : Nat → GenResult)
    (c : List Char) (cs : List (List Char)) (n : Nat)
    (hc : splitWords c = []) (e : List Char) (hfail : gen n = GenResult.err e) :
    (processChunksAux gen (c :: cs) n).1 = (processChunksAux gen cs (n + 1)).1 := by
  have hsub : chunk_text c 8000 = [] := by
    rw [chunk_text, hc, chunkAux_nil_eq, if_pos rfl]
  simp only [processChunksAux, hfail, hsub, processSubs, List.nil_append]

/-- Witness for C10 at a whitespace-only chunk and an always-failing oracle. -/
theorem c10_wordless_failed_chunk_dropped_witness :
    splitWords "  ".toList = [] ∧
      (fun _ : Nat => GenResult.err "x".toList) 0 = GenResult.err "x".toList ∧
      (processChunksAux (fun _ => GenResult.err "x".toList) ["  ".toList] 0).1 =
        (processChunksAux (fun _ => GenResult.err "x".toList) [] 1).1 :=
  ⟨by decide, rfl,
    c10_wordless_failed_chunk_dropped (fun _ => GenResult.err "x".toList)
      "  ".toList [] 0 (by decide) "x".toList rfl⟩

/-- C1 (code bug witness): for each of the four rejection scenarios —
unsupported MIME type, corrupt PDF, undecodable text, blank document — the
body raises an HTTP 400, but the catch-all handler of `simplify_document`
catches that very exception and re-raises it as HTTP 500, so the response
status observed by the client is 500, not the 400 the spec requires. -/
theorem c1_rejections_return_500 :
    respStatus (simplify_document envUnsupported).response = some 500 ∧
      respStatus (simplify_document envCorruptPdf).response = some 500 ∧
      respStatus (simplify_document envUndecodable).response = some 500 ∧
      respStatus (simplify_document envBlankText).response = some 500 ∧
      (simplify_document envUnsupported).response =
        Except.error ⟨500, strOfHTTPError ⟨400, unsupportedDetail⟩⟩ :=
  ⟨rfl, rfl, rfl, rfl, rfl⟩

/-- C2 counterexample: with the backend uninitialized, `/chat` does make
generation attempts before returning — `simplify_text_chunk` runs its full
3-attempt retry loop against the `None` model — refuting the claim that
neither endpoint makes any generation attempt. -/
theorem c2_chat_attempts_counterexample :
    ¬ ((chat_with_document chatEnvNoModel).2 = 0) := by
  intro h
  have : (chat_with_document chatEnvNoModel).2 = 3 := rfl
  omega

/-- C2 (amended): with the backend uninitialized, `/simplify` returns HTTP
500 carrying the wrapped misconfiguration message and makes no extraction or
generation attempt; `/chat` also returns HTTP 500, but only after making the
3 generation attempts of the retry loop, and its detail is the wrapped retry
error, not a misconfiguration message. -/
theorem c2_backend_uninitialized :
    (∀ env : SimplifyEnv, env.modelOk = false →
      (simplify_document env).response =
          Except.error ⟨500, strOfHTTPError ⟨500, misconfigDetail⟩⟩ ∧
        (simplify_document env).extractionAttempted = false ∧
        (simplify_document env).genCalls = 0)
    ∧ (∀ env : ChatEnv, env.modelOk = false →
      (chat_with_document env).1 = Except.error ⟨500, retryWrap attrErrDetail⟩ ∧
        (chat_with_document env).2 = 3) := by
  constructor
  · intro env h
    simp only [simplify_document, simplifyTryBody, h]
    exact ⟨rfl, rfl, rfl⟩
  · intro env h
    have hatt : ∀ k, modelAttempt env.modelOk env.rawGen k = GenResult.err attrErrDetail := by
      intro k
      simp [modelAttempt, h]
    simp only [chat_with_document, simplify_text_chunk]
    simp only [retryGen, hatt]
    exact ⟨rfl, rfl⟩

/-- Witness for C2 (amended) at concrete uninitialized-backend requests. -/
theorem c2_backend_uninitialized_witness :
    envNoModel.modelOk = false ∧ chatEnvNoModel.modelOk = false ∧
      (simplify_document envNoModel).genCalls = 0 ∧
      (chat_with_document chatEnvNoModel).2 = 3 :=
  ⟨rfl, rfl, (c2_backend_uninitialized.1 envNoModel rfl).2.2,
    (c2_backend_uninitialized.2 chatEnvNoModel rfl).2⟩
